import Mathlib

/-!
Verification of the browser-agent session relay and coordinate-normalization
layer. The definitions below are shallow embeddings of the TypeScript source:

* `normalizeCoord`, `click`, `mouseDown`, `mouseUp`, `mouseMove` embed the
  pointer-coordinate handling of
  `src/backend/src/services/streaming-playwright-service.ts` (the four
  methods duplicate one normalization block, embedded once here).
* `pressKey` embeds the key-dispatch switch of the same file.
* `stepFrame` / `runFrames` embed the screencast frame handler and the
  periodic-frame timer callback as a step function over a stream of
  timestamped events.
* `close`, `cleanupSession` embed session teardown and registry removal.
* `handleChatText`, `handleConnection`, `routeInput` embed the chat-command
  parsing and the connection handler of the streaming server.

Coordinates are JavaScript numbers; they are embedded as rationals (`ℚ`),
with `Math.floor` as `Int.floor` and `Math.min` as `min`. Times are embedded
as natural-number milliseconds.
-/

/-- Viewport width used by the service (`newContext` options). -/
def VIEWPORT_WIDTH : ℕ := 1280

/-- Viewport height used by the service (`newContext` options). -/
def VIEWPORT_HEIGHT : ℕ := 720

/-- The coordinate block shared by `click`, `mouseDown`, `mouseUp` and
`mouseMove`: if both components are at most 1 they are scaled by the viewport
and floored; otherwise, if either component exceeds the corresponding
viewport dimension, each component is clamped to `min c (dim - 1)`;
otherwise the pair passes through unchanged. -/
def normalizeCoord (x y : ℚ) (width height : ℕ) : ℚ × ℚ :=
  if x ≤ 1 ∧ y ≤ 1 then
    (((⌊x * (width : ℚ)⌋ : ℤ) : ℚ), ((⌊y * (height : ℚ)⌋ : ℤ) : ℚ))
  else if (width : ℚ) < x ∨ (height : ℚ) < y then
    (min x ((width : ℚ) - 1), min y ((height : ℚ) - 1))
  else
    (x, y)

/-- A call issued to the driver's mouse interface. -/
inductive MouseCall where
  | clickAt (x y : ℚ)
  | moveTo (x y : ℚ)
  | buttonDown
  | buttonUp
  deriving DecidableEq, Repr

/-- `click(x, y)`: normalize, then `page.mouse.click`. -/
def click (x y : ℚ) (width height : ℕ) : List MouseCall :=
  let p := normalizeCoord x y width height
  [MouseCall.clickAt p.1 p.2]

/-- `mouseDown(x, y)`: normalize, move to the target, press the button. -/
def mouseDown (x y : ℚ) (width height : ℕ) : List MouseCall :=
  let p := normalizeCoord x y width height
  [MouseCall.moveTo p.1 p.2, MouseCall.buttonDown]

/-- `mouseUp(x, y)`: normalize, move to the target, release the button. -/
def mouseUp (x y : ℚ) (width height : ℕ) : List MouseCall :=
  let p := normalizeCoord x y width height
  [MouseCall.moveTo p.1 p.2, MouseCall.buttonUp]

/-- `mouseMove(x, y)`: normalize, then `page.mouse.move`. -/
def mouseMove (x y : ℚ) (width height : ℕ) : List MouseCall :=
  let p := normalizeCoord x y width height
  [MouseCall.moveTo p.1 p.2]

/-- C1 counterexample: the claimed invariant fails. The boundary input
`(1, 1)` is treated as a pair of fractions and normalizes to `(1280, 720)`,
outside `[0, 1279] × [0, 719]`; and the input `(-1, 1/2)` normalizes to
`(-1280, 360)`, whose first component is negative. -/
theorem normalize_bounds_counterexample :
    normalizeCoord 1 1 VIEWPORT_WIDTH VIEWPORT_HEIGHT = (1280, 720)
    ∧ ¬ ((normalizeCoord 1 1 VIEWPORT_WIDTH VIEWPORT_HEIGHT).1 ≤ (VIEWPORT_WIDTH : ℚ) - 1)
    ∧ ¬ ((normalizeCoord 1 1 VIEWPORT_WIDTH VIEWPORT_HEIGHT).2 ≤ (VIEWPORT_HEIGHT : ℚ) - 1)
    ∧ normalizeCoord (-1) (1/2) VIEWPORT_WIDTH VIEWPORT_HEIGHT = (-1280, 360)
    ∧ ¬ (0 ≤ (normalizeCoord (-1) (1/2) VIEWPORT_WIDTH VIEWPORT_HEIGHT).1) := by
  refine ⟨?_, ?_, ?_, ?_, ?_⟩ <;> norm_num [normalizeCoord, VIEWPORT_WIDTH, VIEWPORT_HEIGHT]

/-- C1 (amended): for every pointer coordinate pair with nonnegative
components, against a viewport of positive dimensions, the normalized
coordinate lies within `[0, W] × [0, H]` (the closed bounds `W` and `H`, not
`W-1` and `H-1`, are what the code guarantees: boundary inputs such as
`(1, 1)` or `x = W` reach exactly `W`). -/
theorem normalize_bounds_amended (x y : ℚ) (width height : ℕ)
    (hx : 0 ≤ x) (hy : 0 ≤ y) (hw : 1 ≤ width) (hh : 1 ≤ height) :
    0 ≤ (normalizeCoord x y width height).1
    ∧ (normalizeCoord x y width height).1 ≤ (width : ℚ)
    ∧ 0 ≤ (normalizeCoord x y width height).2
    ∧ (normalizeCoord x y width height).2 ≤ (height : ℚ) := by
  have hw1 : (1 : ℚ) ≤ (width : ℚ) := by exact_mod_cast hw
  have hh1 : (1 : ℚ) ≤ (height : ℚ) := by exact_mod_cast hh
  have hw0 : (0 : ℚ) ≤ (width : ℚ) := le_trans zero_le_one hw1
  have hh0 : (0 : ℚ) ≤ (height : ℚ) := le_trans zero_le_one hh1
  unfold normalizeCoord
  split_ifs with hfrac hclamp
  · obtain ⟨hx1, hy1⟩ := hfrac
    have hxw0 : (0 : ℚ) ≤ x * (width : ℚ) := mul_nonneg hx hw0
    have hyh0 : (0 : ℚ) ≤ y * (height : ℚ) := mul_nonneg hy hh0
    have hxw : x * (width : ℚ) ≤ (width : ℚ) := by
      calc x * (width : ℚ) ≤ 1 * (width : ℚ) := by
            exact mul_le_mul_of_nonneg_right hx1 hw0
        _ = (width : ℚ) := one_mul _
    have hyh : y * (height : ℚ) ≤ (height : ℚ) := by
      calc y * (height : ℚ) ≤ 1 * (height : ℚ) := by
            exact mul_le_mul_of_nonneg_right hy1 hh0
        _ = (height : ℚ) := one_mul _
    refine ⟨?_, ?_, ?_, ?_⟩
    · show (0 : ℚ) ≤ ((⌊x * (width : ℚ)⌋ : ℤ) : ℚ)
      exact_mod_cast Int.floor_nonneg.mpr hxw0
    · show ((⌊x * (width : ℚ)⌋ : ℤ) : ℚ) ≤ (width : ℚ)
      exact le_trans (Int.floor_le _) hxw
    · show (0 : ℚ) ≤ ((⌊y * (height : ℚ)⌋ : ℤ) : ℚ)
      exact_mod_cast Int.floor_nonneg.mpr hyh0
    · show ((⌊y * (height : ℚ)⌋ : ℤ) : ℚ) ≤ (height : ℚ)
      exact le_trans (Int.floor_le _) hyh
  · refine ⟨?_, ?_, ?_, ?_⟩
    · exact le_min hx (by linarith)
    · exact le_trans (min_le_right _ _) (by linarith)
    · exact le_min hy (by linarith)
    · exact le_trans (min_le_right _ _) (by linarith)
  · push_neg at hclamp
    exact ⟨hx, hclamp.1, hy, hclamp.2⟩

/-- Witness for the amended C1 theorem at the concrete input `(3, 5)` with
the service's 1280 × 720 viewport. -/
theorem normalize_bounds_amended_witness :
    (0 : ℚ) ≤ 3 ∧ (0 : ℚ) ≤ 5 ∧ 1 ≤ VIEWPORT_WIDTH ∧ 1 ≤ VIEWPORT_HEIGHT
    ∧ (0 ≤ (normalizeCoord 3 5 VIEWPORT_WIDTH VIEWPORT_HEIGHT).1
      ∧ (normalizeCoord 3 5 VIEWPORT_WIDTH VIEWPORT_HEIGHT).1 ≤ (VIEWPORT_WIDTH : ℚ)
      ∧ 0 ≤ (normalizeCoord 3 5 VIEWPORT_WIDTH VIEWPORT_HEIGHT).2
      ∧ (normalizeCoord 3 5 VIEWPORT_WIDTH VIEWPORT_HEIGHT).2 ≤ (VIEWPORT_HEIGHT : ℚ)) :=
  ⟨by norm_num, by norm_num, by norm_num [VIEWPORT_WIDTH], by norm_num [VIEWPORT_HEIGHT],
    normalize_bounds_amended 3 5 VIEWPORT_WIDTH VIEWPORT_HEIGHT (by norm_num) (by norm_num)
      (by norm_num [VIEWPORT_WIDTH]) (by norm_num [VIEWPORT_HEIGHT])⟩

/-- C2: for both components in `[0, 1]`, normalization scales by the viewport
and floors; with the service's 1280 × 720 viewport, the input `(0.5, 0.5)`
results in a driver click at pixel `(640, 360)`. -/
theorem normalize_fraction (x y : ℚ) (width height : ℕ)
    (hx0 : 0 ≤ x) (hx1 : x ≤ 1) (hy0 : 0 ≤ y) (hy1 : y ≤ 1) :
    normalizeCoord x y width height
      = (((⌊x * (width : ℚ)⌋ : ℤ) : ℚ), ((⌊y * (height : ℚ)⌋ : ℤ) : ℚ))
    ∧ click (1/2) (1/2) VIEWPORT_WIDTH VIEWPORT_HEIGHT = [MouseCall.clickAt 640 360] := by
  constructor
  · unfold normalizeCoord
    rw [if_pos ⟨hx1, hy1⟩]
  · norm_num [click, normalizeCoord, VIEWPORT_WIDTH, VIEWPORT_HEIGHT]

/-- Witness for C2 at the concrete input `(1/2, 1/2)` with the 1280 × 720
viewport. -/
theorem normalize_fraction_witness :
    (0 : ℚ) ≤ 1/2 ∧ (1 : ℚ)/2 ≤ 1
    ∧ (normalizeCoord (1/2) (1/2) VIEWPORT_WIDTH VIEWPORT_HEIGHT
        = (((⌊(1/2 : ℚ) * (VIEWPORT_WIDTH : ℚ)⌋ : ℤ) : ℚ),
           ((⌊(1/2 : ℚ) * (VIEWPORT_HEIGHT : ℚ)⌋ : ℤ) : ℚ))
      ∧ click (1/2) (1/2) VIEWPORT_WIDTH VIEWPORT_HEIGHT = [MouseCall.clickAt 640 360]) :=
  ⟨by norm_num, by norm_num,
    normalize_fraction (1/2) (1/2) VIEWPORT_WIDTH VIEWPORT_HEIGHT
      (by norm_num) (by norm_num) (by norm_num) (by norm_num)⟩

/-- C3: when either component exceeds the corresponding viewport dimension,
normalization clamps each component to `min c (dim - 1)`; with the
1280 × 720 viewport, the input `(2000, 50)` results in a driver click at
pixel `(1279, 50)`. -/
theorem normalize_clamp (x y : ℚ) (width height : ℕ)
    (hw : 1 ≤ width) (hh : 1 ≤ height)
    (hover : (width : ℚ) < x ∨ (height : ℚ) < y) :
    normalizeCoord x y width height
      = (min x ((width : ℚ) - 1), min y ((height : ℚ) - 1))
    ∧ click 2000 50 VIEWPORT_WIDTH VIEWPORT_HEIGHT = [MouseCall.clickAt 1279 50] := by
  have hw1 : (1 : ℚ) ≤ (width : ℚ) := by exact_mod_cast hw
  have hh1 : (1 : ℚ) ≤ (height : ℚ) := by exact_mod_cast hh
  constructor
  · have hnotfrac : ¬ (x ≤ 1 ∧ y ≤ 1) := by
      rcases hover with h | h
      · intro hc
        have hxw : x ≤ (width : ℚ) := le_trans hc.1 hw1
        linarith
      · intro hc
        have hyh : y ≤ (height : ℚ) := le_trans hc.2 hh1
        linarith
    unfold normalizeCoord
    rw [if_neg hnotfrac, if_pos hover]
  · norm_num [click, normalizeCoord, VIEWPORT_WIDTH, VIEWPORT_HEIGHT]

/-- Witness for C3 at the concrete input `(2000, 50)` with the 1280 × 720
viewport. -/
theorem normalize_clamp_witness :
    1 ≤ VIEWPORT_WIDTH ∧ 1 ≤ VIEWPORT_HEIGHT
    ∧ ((VIEWPORT_WIDTH : ℚ) < 2000 ∨ (VIEWPORT_HEIGHT : ℚ) < 50)
    ∧ (normalizeCoord 2000 50 VIEWPORT_WIDTH VIEWPORT_HEIGHT
        = (min 2000 ((VIEWPORT_WIDTH : ℚ) - 1), min 50 ((VIEWPORT_HEIGHT : ℚ) - 1))
      ∧ click 2000 50 VIEWPORT_WIDTH VIEWPORT_HEIGHT = [MouseCall.clickAt 1279 50]) :=
  ⟨by norm_num [VIEWPORT_WIDTH], by norm_num [VIEWPORT_HEIGHT],
    Or.inl (by norm_num [VIEWPORT_WIDTH]),
    normalize_clamp 2000 50 VIEWPORT_WIDTH VIEWPORT_HEIGHT
      (by norm_num [VIEWPORT_WIDTH]) (by norm_num [VIEWPORT_HEIGHT])
      (Or.inl (by norm_num [VIEWPORT_WIDTH]))⟩

/-- C4: a coordinate pair already within `[0, W-1] × [0, H-1]` whose
components are not both at most 1 passes through normalization unchanged. -/
theorem normalize_identity (x y : ℚ) (width height : ℕ)
    (hxu : x ≤ (width : ℚ) - 1) (hyu : y ≤ (height : ℚ) - 1)
    (hnotfrac : ¬ (x ≤ 1 ∧ y ≤ 1)) :
    normalizeCoord x y width height = (x, y) := by
  have hnover : ¬ ((width : ℚ) < x ∨ (height : ℚ) < y) := by
    push_neg
    constructor
    · linarith
    · linarith
  unfold normalizeCoord
  rw [if_neg hnotfrac, if_neg hnover]

/-- Witness for C4 at the concrete input `(100, 200)` with the 1280 × 720
viewport. -/
theorem normalize_identity_witness :
    (100 : ℚ) ≤ (VIEWPORT_WIDTH : ℚ) - 1 ∧ (200 : ℚ) ≤ (VIEWPORT_HEIGHT : ℚ) - 1
    ∧ ¬ ((100 : ℚ) ≤ 1 ∧ (200 : ℚ) ≤ 1)
    ∧ normalizeCoord 100 200 VIEWPORT_WIDTH VIEWPORT_HEIGHT = (100, 200) :=
  ⟨by norm_num [VIEWPORT_WIDTH], by norm_num [VIEWPORT_HEIGHT], by norm_num,
    normalize_identity 100 200 VIEWPORT_WIDTH VIEWPORT_HEIGHT
      (by norm_num [VIEWPORT_WIDTH]) (by norm_num [VIEWPORT_HEIGHT]) (by norm_num)⟩

/-- A call issued for one key press: a history action, a page reload, a named
key press (`keyboard.press`), or literal typed text (`keyboard.type`). -/
inductive KeyAction where
  | goBack
  | goForward
  | reload
  | pressNamed (k : String)
  | typeText (s : String)
  deriving DecidableEq, Repr

/-- The keys the `pressKey` switch handles by explicit cases. -/
def keyTable : List String :=
  ["Back", "Forward", "F5", "Enter", "Backspace", "Tab", "Escape",
   "ArrowLeft", "ArrowRight", "ArrowUp", "ArrowDown", "Delete", " "]

/-- `pressKey(key)`: the switch over the key name, embedded as the same
chain of comparisons; the default branch types single-character keys as
literal text and presses anything else as a named key. -/
def pressKey (key : String) : KeyAction :=
  if key = "Back" then KeyAction.goBack
  else if key = "Forward" then KeyAction.goForward
  else if key = "F5" then KeyAction.reload
  else if key = "Enter" then KeyAction.pressNamed "Enter"
  else if key = "Backspace" then KeyAction.pressNamed "Backspace"
  else if key = "Tab" then KeyAction.pressNamed "Tab"
  else if key = "Escape" then KeyAction.pressNamed "Escape"
  else if key = "ArrowLeft" then KeyAction.pressNamed "ArrowLeft"
  else if key = "ArrowRight" then KeyAction.pressNamed "ArrowRight"
  else if key = "ArrowUp" then KeyAction.pressNamed "ArrowUp"
  else if key = "ArrowDown" then KeyAction.pressNamed "ArrowDown"
  else if key = "Delete" then KeyAction.pressNamed "Delete"
  else if key = " " then KeyAction.pressNamed "Space"
  else if key.length = 1 then KeyAction.typeText key
  else KeyAction.pressNamed key

/-- C8: a key in the lookup table maps to its driver action (`"Back"` to
history back, `"F5"` to reload, `"ArrowLeft"` to a named key press); a key
not in the table of length exactly 1 is dispatched as literal typed text;
and a key not in the table longer than one character is passed through as a
raw named key-press identifier. -/
theorem pressKey_dispatch (k : String) (hk : k ∉ keyTable) :
    pressKey "Back" = KeyAction.goBack
    ∧ pressKey "F5" = KeyAction.reload
    ∧ pressKey "ArrowLeft" = KeyAction.pressNamed "ArrowLeft"
    ∧ pressKey "a" = KeyAction.typeText "a"
    ∧ (k.length = 1 → pressKey k = KeyAction.typeText k)
    ∧ (1 < k.length → pressKey k = KeyAction.pressNamed k) := by
  simp only [keyTable, List.mem_cons, List.not_mem_nil, or_false, not_or] at hk
  obtain ⟨h1, h2, h3, h4, h5, h6, h7, h8, h9, h10, h11, h12, h13⟩ := hk
  refine ⟨by decide, by decide, by decide, by decide, ?_, ?_⟩
  · intro hlen
    unfold pressKey
    rw [if_neg h1, if_neg h2, if_neg h3, if_neg h4, if_neg h5, if_neg h6,
      if_neg h7, if_neg h8, if_neg h9, if_neg h10, if_neg h11, if_neg h12,
      if_neg h13, if_pos hlen]
  · intro hlen
    have hne : ¬ k.length = 1 := by omega
    unfold pressKey
    rw [if_neg h1, if_neg h2, if_neg h3, if_neg h4, if_neg h5, if_neg h6,
      if_neg h7, if_neg h8, if_neg h9, if_neg h10, if_neg h11, if_neg h12,
      if_neg h13, if_neg hne]

/-- Witness for C8 at the concrete key `"abc"`, which is not in the table. -/
theorem pressKey_dispatch_witness :
    ("abc" : String) ∉ keyTable
    ∧ (pressKey "Back" = KeyAction.goBack
      ∧ pressKey "F5" = KeyAction.reload
      ∧ pressKey "ArrowLeft" = KeyAction.pressNamed "ArrowLeft"
      ∧ pressKey "a" = KeyAction.typeText "a"
      ∧ (String.length "abc" = 1 → pressKey "abc" = KeyAction.typeText "abc")
      ∧ (1 < String.length "abc" → pressKey "abc" = KeyAction.pressNamed "abc")) :=
  ⟨by decide, pressKey_dispatch "abc" (by decide)⟩

/-- True when a character is not a JavaScript line terminator (the dot of
the navigation pattern matches exactly these characters). -/
def dotMatches (c : Char) : Bool :=
  !(c == '\n' || c == '\r' || c == Char.ofNat 8232 || c == Char.ofNat 8233)

/-- One alternative of the anchored, case-insensitive navigation pattern:
when the lowercased text starts with the command word followed by a space,
and the remainder is nonempty with no line terminator, that remainder is the
captured target (taken from the original text, case preserved). Strings are
handled through their character lists. -/
def navTargetAfter (cmd text : String) : Option String :=
  if List.isPrefixOf cmd.data (text.data.map Char.toLower)
      ∧ cmd.data.length < text.data.length
      ∧ (text.data.drop cmd.data.length).all dotMatches = true then
    some (String.mk (text.data.drop cmd.data.length))
  else none

/-- The navigation-command pattern of `handleChatMessage`: the three
alternatives tried in the order they appear in the pattern. -/
def navTarget (text : String) : Option String :=
  match navTargetAfter "go to " text with
  | some r => some r
  | none =>
    match navTargetAfter "navigate to " text with
    | some r => some r
    | none => navTargetAfter "open " text

/-- The outcome of one chat message: a navigation issued to the browser
service, or an acknowledgment echoed back. -/
inductive ChatOutcome where
  | navigate (url : String)
  | echo (text : String)
  deriving DecidableEq, Repr

/-- `handleChatMessage`: a text matching the navigation pattern triggers a
navigation, with `https://` prepended unless the target starts with
`"http"`; any other text is echoed back. -/
def handleChatText (text : String) : ChatOutcome :=
  match navTarget text with
  | some target =>
    ChatOutcome.navigate (if List.isPrefixOf "http".data target.data
      then target else "https://" ++ target)
  | none => ChatOutcome.echo ("Received your message: \"" ++ text ++ "\"")

/-- Modelled from the spec: the spec speaks of a target that "has no scheme".
Following RFC 3986, a string has a scheme when it begins with a letter
followed by letters, digits, `+`, `-` or `.` up to a `:`. The source itself
only tests whether the target starts with `"http"`; this definition exists
to state the spec's wording against it. -/
def schemeTail : List Char → Bool
  | [] => false
  | c :: rest =>
    if c = ':' then true
    else if c.isAlphanum || c == '+' || c == '-' || c == '.' then schemeTail rest
    else false

/-- Modelled from the spec: whether a navigation target carries a URI
scheme (see `schemeTail`). -/
def specHasScheme (s : String) : Bool :=
  match s.data with
  | [] => false
  | c :: rest => c.isAlpha && schemeTail rest

/-- C9 counterexample: the chat text `"go to httpbin.org"` matches the
navigation pattern with target `"httpbin.org"`, which has no scheme, yet the
handler navigates to `"httpbin.org"` unprefixed, because the code tests
whether the target starts with `"http"` rather than whether it has a
scheme. -/
theorem chat_scheme_counterexample :
    navTarget "go to httpbin.org" = some "httpbin.org"
    ∧ specHasScheme "httpbin.org" = false
    ∧ handleChatText "go to httpbin.org" = ChatOutcome.navigate "httpbin.org"
    ∧ ("httpbin.org" : String) ≠ "https://httpbin.org" := by
  refine ⟨by decide, by decide, by decide, by decide⟩

/-- C9 (amended): a chat text matching the pattern
`"(go to|navigate to|open) <target>"` triggers a navigation to the target,
prefixing `https://` whenever the target does not start with `"http"`
(rather than whenever it has no scheme); `"go to example.com"` navigates to
`https://example.com`; and any text not matching the pattern is echoed back
as an acknowledgment. -/
theorem chat_navigation_amended (text target : String)
    (h : navTarget text = some target) :
    handleChatText text
      = ChatOutcome.navigate (if List.isPrefixOf "http".data target.data
          then target else "https://" ++ target)
    ∧ (List.isPrefixOf "http".data target.data = false →
        handleChatText text = ChatOutcome.navigate ("https://" ++ target))
    ∧ handleChatText "go to example.com" = ChatOutcome.navigate "https://example.com"
    ∧ (∀ t, navTarget t = none →
        handleChatText t = ChatOutcome.echo ("Received your message: \"" ++ t ++ "\"")) := by
  refine ⟨?_, ?_, by decide, ?_⟩
  · simp [handleChatText, h]
  · intro hns
    simp [handleChatText, h, hns]
  · intro t ht
    simp [handleChatText, ht]

/-- Witness for the amended C9 theorem at the chat text
`"go to example.com"`. -/
theorem chat_navigation_amended_witness :
    navTarget "go to example.com" = some "example.com"
    ∧ (handleChatText "go to example.com"
        = ChatOutcome.navigate (if List.isPrefixOf "http".data ("example.com" : String).data
            then "example.com" else "https://" ++ "example.com")
      ∧ (List.isPrefixOf "http".data ("example.com" : String).data = false →
          handleChatText "go to example.com"
            = ChatOutcome.navigate ("https://" ++ "example.com"))
      ∧ handleChatText "go to example.com" = ChatOutcome.navigate "https://example.com"
      ∧ (∀ t, navTarget t = none →
          handleChatText t = ChatOutcome.echo ("Received your message: \"" ++ t ++ "\""))) :=
  ⟨by decide, chat_navigation_amended "go to example.com" "example.com" (by decide)⟩

/-- A status message the streaming server sends over a connection. -/
inductive ServerMsg where
  | welcome
  | ready
  | initError
  | sessionNotFound
  deriving DecidableEq, Repr

/-- The connection handler: a welcome message is sent, the browser service
is initialized, and on success the session id is stored in the registry and
a confirmation sent; on failure one error diagnostic is sent, no entry is
stored, and the connection is left open (the final component). -/
def handleConnection (registry : List ℕ) (sid : ℕ) (initFails : Bool) :
    List ℕ × List ServerMsg × Bool :=
  if initFails then
    (registry, [ServerMsg.welcome, ServerMsg.initError], true)
  else
    (sid :: registry, [ServerMsg.welcome, ServerMsg.ready], true)

/-- The message handler's session lookup: an inbound input message for a
connection with no registry entry is answered with a session-not-found
status message; otherwise it is dispatched to the service (no immediate
status message). -/
def routeInput (registry : List ℕ) (sid : ℕ) : Option ServerMsg :=
  if sid ∈ registry then none
  else some ServerMsg.sessionNotFound

/-- C10: when session creation fails for a fresh connection, no entry is
added to the registry, exactly one diagnostic is sent, the connection stays
open, and any input message arriving afterwards yields a session-not-found
status message. -/
theorem init_failure_no_session (registry : List ℕ) (sid : ℕ)
    (hfresh : sid ∉ registry) :
    (handleConnection registry sid true).1 = registry
    ∧ (handleConnection registry sid true).2.1.count ServerMsg.initError = 1
    ∧ (handleConnection registry sid true).2.2 = true
    ∧ routeInput (handleConnection registry sid true).1 sid
        = some ServerMsg.sessionNotFound := by
  refine ⟨rfl, rfl, rfl, ?_⟩
  simp [handleConnection, routeInput, hfresh]

/-- Witness for C10 with an empty registry and session id 0. -/
theorem init_failure_no_session_witness :
    (0 : ℕ) ∉ ([] : List ℕ)
    ∧ ((handleConnection [] 0 true).1 = []
      ∧ (handleConnection [] 0 true).2.1.count ServerMsg.initError = 1
      ∧ (handleConnection [] 0 true).2.2 = true
      ∧ routeInput (handleConnection [] 0 true).1 0 = some ServerMsg.sessionNotFound) :=
  ⟨by decide, init_failure_no_session [] 0 (by decide)⟩

/-- A driver call issued during session teardown. -/
inductive TeardownCall where
  | stopScreencast
  | detachClient
  | closePage
  | closeContext
  | closeBrowser
  deriving DecidableEq, Repr

/-- Which of the service's owned resources are still live. -/
structure ServiceHandles where
  streamingClient : Bool
  page : Bool
  ctx : Bool
  browser : Bool
  periodicTimer : Bool
  isStreaming : Bool
  deriving DecidableEq, Repr

/-- Which teardown driver calls throw when attempted. -/
structure CloseFaults where
  stopFails : Bool
  detachFails : Bool
  pageFails : Bool
  ctxFails : Bool
  browserFails : Bool
  deriving DecidableEq, Repr

/-- What one `close()` invocation did: the handles afterwards, the driver
calls attempted in order, and whether an error escaped to the caller. -/
structure CloseResult where
  handles : ServiceHandles
  calls : List TeardownCall
  err : Bool
  deriving DecidableEq, Repr

/-- `close()`: streaming is stopped and the timer cleared; stopping and
detaching the screencast client sit in their own try block whose error is
logged and swallowed, and the client reference is dropped regardless; the
page, context and browser closes run directly inside the outer try block,
whose catch logs and rethrows, so a throwing step leaves its own handle and
every later one untouched and surfaces the error. -/
def close (h0 : ServiceHandles) (f : CloseFaults) : CloseResult :=
  let h1 : ServiceHandles := { h0 with isStreaming := false, periodicTimer := false }
  let scCalls : List TeardownCall :=
    if h1.streamingClient then
      if f.stopFails then [TeardownCall.stopScreencast]
      else [TeardownCall.stopScreencast, TeardownCall.detachClient]
    else []
  let h2 : ServiceHandles := { h1 with streamingClient := false }
  if h2.page ∧ f.pageFails then
    ⟨h2, scCalls ++ [TeardownCall.closePage], true⟩
  else
    let pCalls := scCalls ++ (if h2.page then [TeardownCall.closePage] else [])
    let h3 : ServiceHandles := { h2 with page := false }
    if h3.ctx ∧ f.ctxFails then
      ⟨h3, pCalls ++ [TeardownCall.closeContext], true⟩
    else
      let cCalls := pCalls ++ (if h3.ctx then [TeardownCall.closeContext] else [])
      let h4 : ServiceHandles := { h3 with ctx := false }
      if h4.browser ∧ f.browserFails then
        ⟨h4, cCalls ++ [TeardownCall.closeBrowser], true⟩
      else
        ⟨{ h4 with browser := false },
          cCalls ++ (if h4.browser then [TeardownCall.closeBrowser] else []), false⟩

/-- The handles of a freshly initialized streaming session. -/
def allLive : ServiceHandles := ⟨true, true, true, true, true, true⟩

/-- No teardown call throws. -/
def noFaults : CloseFaults := ⟨false, false, false, false, false⟩

/-- Only `page.close()` throws. -/
def pageFaultOnly : CloseFaults := ⟨false, false, true, false, false⟩

/-- `cleanupSession`: when the registry holds the session, `close()` is
awaited and then the entry deleted; the delete sits after the await inside
the try block, so an error escaping `close()` is logged and the delete is
skipped. Result: whether the entry is still present, the handles, and the
teardown calls made. -/
def cleanupSession (present : Bool) (h : ServiceHandles) (f : CloseFaults) :
    Bool × ServiceHandles × List TeardownCall :=
  if present then
    let r := close h f
    if r.err then (true, r.handles, r.calls)
    else (false, r.handles, r.calls)
  else (present, h, [])

/-- C6 counterexample: when `page.close()` throws during teardown of a live
session, the error escapes `close()` to its caller, and the context and
browser close steps are never attempted. -/
theorem teardown_swallow_counterexample :
    (close allLive pageFaultOnly).err = true
    ∧ TeardownCall.closeContext ∉ (close allLive pageFaultOnly).calls
    ∧ TeardownCall.closeBrowser ∉ (close allLive pageFaultOnly).calls
    ∧ (close allLive pageFaultOnly).calls
        = [TeardownCall.stopScreencast, TeardownCall.detachClient,
           TeardownCall.closePage] := by
  decide

/-- C6 (amended): an error while stopping or detaching the screencast client
is swallowed and never prevents the remaining steps; but an error from the
page, context or browser close is propagated to the caller and aborts the
remaining teardown steps. -/
theorem teardown_error_amended (f : CloseFaults) :
    ((f.pageFails = false ∧ f.ctxFails = false ∧ f.browserFails = false) →
      (close allLive f).err = false
      ∧ TeardownCall.stopScreencast ∈ (close allLive f).calls
      ∧ TeardownCall.closePage ∈ (close allLive f).calls
      ∧ TeardownCall.closeContext ∈ (close allLive f).calls
      ∧ TeardownCall.closeBrowser ∈ (close allLive f).calls)
    ∧ (f.pageFails = true →
      (close allLive f).err = true
      ∧ TeardownCall.closeContext ∉ (close allLive f).calls
      ∧ TeardownCall.closeBrowser ∉ (close allLive f).calls)
    ∧ ((f.pageFails = false ∧ f.ctxFails = true) →
      (close allLive f).err = true
      ∧ TeardownCall.closeBrowser ∉ (close allLive f).calls)
    ∧ ((f.pageFails = false ∧ f.ctxFails = false ∧ f.browserFails = true) →
      (close allLive f).err = true
      ∧ TeardownCall.closeBrowser ∈ (close allLive f).calls) := by
  rcases f with ⟨a, b, c, d, e⟩
  cases a <;> cases b <;> cases c <;> cases d <;> cases e <;> decide

/-- C7 counterexample: a cleanup whose `close()` throws (here the page close
fails) logs the error and skips the registry delete, so the entry for the
session is never removed, not removed exactly once. -/
theorem registry_removal_counterexample :
    (cleanupSession true allLive pageFaultOnly).1 = true
    ∧ (close allLive pageFaultOnly).err = true := by
  decide

/-- C7 (amended): when the first `close()` completes without error, a second
`close()` makes no driver calls, changes nothing and surfaces no error,
whatever faults would occur; the successful cleanup removes the registry
entry, and a second cleanup for the now-absent entry makes no driver calls
and leaves the registry unchanged. A `close()` that throws leaves the
registry entry in place. -/
theorem close_twice_amended (f1 f2 : CloseFaults)
    (hok : (close allLive f1).err = false) :
    (close (close allLive f1).handles f2).calls = []
    ∧ (close (close allLive f1).handles f2).err = false
    ∧ (close (close allLive f1).handles f2).handles = (close allLive f1).handles
    ∧ (cleanupSession true allLive f1).1 = false
    ∧ cleanupSession (cleanupSession true allLive f1).1 (close allLive f1).handles f2
        = (false, (close allLive f1).handles, []) := by
  rcases f1 with ⟨a1, b1, c1, d1, e1⟩
  rcases f2 with ⟨a2, b2, c2, d2, e2⟩
  revert hok
  cases c1 <;> cases d1 <;> cases e1 <;>
    cases a1 <;> cases b1 <;> cases a2 <;> cases b2 <;> cases c2 <;> cases d2 <;> cases e2 <;>
    decide

/-- Witness for the amended C7 theorem with no faults on either call. -/
theorem close_twice_amended_witness :
    (close allLive noFaults).err = false
    ∧ ((close (close allLive noFaults).handles noFaults).calls = []
      ∧ (close (close allLive noFaults).handles noFaults).err = false
      ∧ (close (close allLive noFaults).handles noFaults).handles
          = (close allLive noFaults).handles
      ∧ (cleanupSession true allLive noFaults).1 = false
      ∧ cleanupSession (cleanupSession true allLive noFaults).1
          (close allLive noFaults).handles noFaults
          = (false, (close allLive noFaults).handles, [])) :=
  ⟨by decide, close_twice_amended noFaults noFaults (by decide)⟩

/-- `FRAME_INTERVAL`: the heartbeat period and the minimum quiet time before
a heartbeat frame, in milliseconds. -/
def FRAME_INTERVAL : ℕ := 1000

/-- The mutable state the two frame triggers share: the streaming flag and
`lastFrameTimestamp` (0 before any frame, as in the falsy check of the
source). -/
structure StreamState where
  isStreaming : Bool
  lastFrameTimestamp : ℕ
  deriving DecidableEq, Repr

/-- One occurrence during streaming: a screencast frame delivered by the
driver at time `t`, or the periodic timer firing at time `t`. -/
inductive StreamEvent where
  | screencast (t : ℕ)
  | tick (t : ℕ)
  deriving DecidableEq, Repr

/-- The time at which an event occurs. -/
def StreamEvent.time : StreamEvent → ℕ
  | .screencast t => t
  | .tick t => t

/-- A frame forwarded to the client: when, and whether it came from the
heartbeat (`true`) or from the screencast (`false`). -/
structure Forwarded where
  time : ℕ
  heartbeat : Bool
  deriving DecidableEq, Repr

/-- One step of the two frame triggers. A screencast frame is forwarded
unconditionally while streaming, updating `lastFrameTimestamp`. A timer tick
captures and forwards a heartbeat frame only when no frame has ever been
forwarded (timestamp 0) or at least `FRAME_INTERVAL` has elapsed since the
last one, again updating the timestamp; otherwise it does nothing. -/
def stepFrame (st : StreamState) : StreamEvent → StreamState × Option Forwarded
  | .screencast t =>
    if st.isStreaming then
      ({ st with lastFrameTimestamp := t }, some ⟨t, false⟩)
    else (st, none)
  | .tick t =>
    if st.isStreaming
        ∧ (st.lastFrameTimestamp = 0 ∨ FRAME_INTERVAL ≤ t - st.lastFrameTimestamp) then
      ({ st with lastFrameTimestamp := t }, some ⟨t, true⟩)
    else (st, none)

/-- Run the frame triggers over a chronological list of events, collecting
the forwarded frames. -/
def runFrames (st : StreamState) : List StreamEvent → StreamState × List Forwarded
  | [] => (st, [])
  | e :: es =>
    let s1 := stepFrame st e
    let s2 := runFrames s1.1 es
    (s2.1, s1.2.toList ++ s2.2)

/-- The state right after `setupScreencast` set `isStreaming` and before any
frame. -/
def initStream : StreamState := ⟨true, 0⟩

/-- Events listed in chronological order. -/
def Chron (es : List StreamEvent) : Prop :=
  List.Pairwise (fun a b => a.time ≤ b.time) es

/-- A trace refuting the per-interval guarantee: the periodic timer runs at
phase 998 (ticks at 1998, 2998, 3998), a first screencast frame arrives at
1000 and a second at 1999. -/
def starvationTrace : List StreamEvent :=
  [StreamEvent.screencast 1000, StreamEvent.tick 1998, StreamEvent.screencast 1999,
   StreamEvent.tick 2998, StreamEvent.tick 3998]

/-- C5 counterexample: on `starvationTrace` — chronological, with the
periodic timer firing every `FRAME_INTERVAL` ms — the frames forwarded are
at 1000, 1999 and 3998, so the interval `[2000, 3000)` of length
`FRAME_INTERVAL` starting one interval after the first forwarded frame
contains no forwarded frame at all: the screencast frame at 1999 postpones
the heartbeat past the whole interval. -/
theorem frame_interval_counterexample :
    Chron starvationTrace
    ∧ (∀ e ∈ starvationTrace, 1 ≤ e.time)
    ∧ (runFrames initStream starvationTrace).2
        = [⟨1000, false⟩, ⟨1999, false⟩, ⟨3998, true⟩]
    ∧ (∀ f ∈ (runFrames initStream starvationTrace).2,
        ¬ (1000 + FRAME_INTERVAL ≤ f.time ∧ f.time < 1000 + 2 * FRAME_INTERVAL)) := by
  refine ⟨?_, by decide, by decide, by decide⟩
  unfold Chron starvationTrace
  decide

/-- Unfolding lemma: running over an empty trace does nothing. -/
theorem runFrames_nil (st : StreamState) : runFrames st [] = (st, []) := rfl

/-- Unfolding lemma: one step followed by the rest of the trace. -/
theorem runFrames_cons (st : StreamState) (e : StreamEvent) (es : List StreamEvent) :
    runFrames st (e :: es)
      = ((runFrames (stepFrame st e).1 es).1,
         (stepFrame st e).2.toList ++ (runFrames (stepFrame st e).1 es).2) := rfl

/-- Every step either leaves the state unchanged and forwards nothing, or
forwards one frame stamped with the event time and records that time. -/
theorem stepFrame_cases (st : StreamState) (e : StreamEvent) :
    stepFrame st e = (st, none)
    ∨ ∃ b, stepFrame st e
        = ({ st with lastFrameTimestamp := e.time }, some ⟨e.time, b⟩) := by
  cases e with
  | screencast t =>
    simp only [stepFrame, StreamEvent.time]
    by_cases h : st.isStreaming = true
    · exact Or.inr ⟨false, by rw [if_pos h]⟩
    · exact Or.inl (by rw [if_neg h])
  | tick t =>
    simp only [stepFrame, StreamEvent.time]
    by_cases h : st.isStreaming = true
        ∧ (st.lastFrameTimestamp = 0 ∨ FRAME_INTERVAL ≤ t - st.lastFrameTimestamp)
    · exact Or.inr ⟨true, by rw [if_pos h]⟩
    · exact Or.inl (by rw [if_neg h])

/-- The frame triggers never change the streaming flag. -/
theorem runFrames_isStreaming (es : List StreamEvent) (st : StreamState) :
    (runFrames st es).1.isStreaming = st.isStreaming := by
  induction es generalizing st with
  | nil => rfl
  | cons e es ih =>
    rw [runFrames_cons]
    rcases stepFrame_cases st e with h | ⟨b, h⟩ <;> rw [h] <;> exact ih _

/-- Along a chronological trace whose events lie at or after the recorded
timestamp, the timestamp never decreases, and every forwarded frame is
stamped no later than the final timestamp. -/
theorem runFrames_last_bound (es : List StreamEvent) (st : StreamState)
    (hle : ∀ e ∈ es, st.lastFrameTimestamp ≤ e.time) (hchron : Chron es) :
    st.lastFrameTimestamp ≤ (runFrames st es).1.lastFrameTimestamp
    ∧ ∀ f ∈ (runFrames st es).2, f.time ≤ (runFrames st es).1.lastFrameTimestamp := by
  induction es generalizing st with
  | nil => exact ⟨le_refl _, by simp [runFrames_nil]⟩
  | cons e es ih =>
    rw [Chron, List.pairwise_cons] at hchron
    obtain ⟨hhead, hchron'⟩ := hchron
    rw [runFrames_cons]
    rcases stepFrame_cases st e with h | ⟨b, h⟩
    · rw [h]
      have hle' : ∀ e' ∈ es, ((st, (none : Option Forwarded)).1).lastFrameTimestamp ≤ e'.time :=
        fun e' he' => hle e' (List.mem_cons_of_mem _ he')
      obtain ⟨h1, h2⟩ := ih _ hle' hchron'
      exact ⟨h1, by simpa using h2⟩
    · rw [h]
      have hle' : ∀ e' ∈ es,
          (({ st with lastFrameTimestamp := e.time }, some (⟨e.time, b⟩ : Forwarded)).1).lastFrameTimestamp
            ≤ e'.time :=
        fun e' he' => hhead e' he'
      obtain ⟨h1, h2⟩ := ih _ hle' hchron'
      refine ⟨le_trans (hle e (List.mem_cons_self _ _)) h1, ?_⟩
      intro f hf
      have hf' : f = (⟨e.time, b⟩ : Forwarded)
          ∨ f ∈ (runFrames { st with lastFrameTimestamp := e.time } es).2 := by
        simpa using hf
      rcases hf' with hf1 | hf2
      · rw [hf1]
        exact h1
      · exact h2 f hf2

/-- Every forwarded frame is stamped with the time of some trace event. -/
theorem runFrames_forwarded_src (es : List StreamEvent) (st : StreamState) :
    ∀ f ∈ (runFrames st es).2, ∃ e ∈ es, e.time = f.time := by
  induction es generalizing st with
  | nil => simp [runFrames_nil]
  | cons e es ih =>
    rw [runFrames_cons]
    rcases stepFrame_cases st e with h | ⟨b, h⟩ <;> rw [h]
    · intro f hf
      obtain ⟨e', he', het⟩ := ih _ f (by simpa using hf)
      exact ⟨e', List.mem_cons_of_mem _ he', het⟩
    · intro f hf
      have hf' : f = (⟨e.time, b⟩ : Forwarded)
          ∨ f ∈ (runFrames { st with lastFrameTimestamp := e.time } es).2 := by
        simpa using hf
      rcases hf' with hf1 | hf2
      · exact ⟨e, List.mem_cons_self _ _, by rw [hf1]⟩
      · obtain ⟨e', he', het⟩ := ih _ f hf2
        exact ⟨e', List.mem_cons_of_mem _ he', het⟩

/-- The final timestamp is the initial one, or the stamp of some forwarded
frame. -/
theorem runFrames_last_src (es : List StreamEvent) (st : StreamState) :
    (runFrames st es).1.lastFrameTimestamp = st.lastFrameTimestamp
    ∨ ∃ f ∈ (runFrames st es).2,
        f.time = (runFrames st es).1.lastFrameTimestamp := by
  induction es generalizing st with
  | nil => exact Or.inl rfl
  | cons e es ih =>
    rw [runFrames_cons]
    rcases stepFrame_cases st e with h | ⟨b, h⟩ <;> rw [h]
    · rcases ih ((st, (none : Option Forwarded)).1) with h1 | ⟨f, hf, hft⟩
      · exact Or.inl h1
      · exact Or.inr ⟨f, by simpa using hf, hft⟩
    · rcases ih (({ st with lastFrameTimestamp := e.time },
          some (⟨e.time, b⟩ : Forwarded)).1) with h1 | ⟨f, hf, hft⟩
      · refine Or.inr ⟨⟨e.time, b⟩, by simp, ?_⟩
        rw [h1]
      · exact Or.inr ⟨f, by simp [hf], hft⟩

/-- Running over a concatenation runs the pieces in sequence and
concatenates the forwarded frames. -/
theorem runFrames_append (es1 es2 : List StreamEvent) (st : StreamState) :
    runFrames st (es1 ++ es2)
      = ((runFrames (runFrames st es1).1 es2).1,
         (runFrames st es1).2 ++ (runFrames (runFrames st es1).1 es2).2) := by
  induction es1 generalizing st with
  | nil => simp [runFrames_nil]
  | cons e es ih =>
    rw [List.cons_append, runFrames_cons, ih, runFrames_cons]
    simp [List.append_assoc]

/-- Liveness core: from a streaming state whose last forwarded frame is at a
positive time `s`, running a chronological trace of events at or after `s`
that contains a timer tick in `[s + FRAME_INTERVAL, s + 2 * FRAME_INTERVAL)`
forwards some frame strictly inside `(s, s + 2 * FRAME_INTERVAL)`. -/
theorem runFrames_tick_live (es : List StreamEvent) (st : StreamState) (t : ℕ)
    (hstream : st.isStreaming = true) (hpos : 1 ≤ st.lastFrameTimestamp)
    (hle : ∀ e ∈ es, st.lastFrameTimestamp ≤ e.time) (hchron : Chron es)
    (hmem : StreamEvent.tick t ∈ es)
    (hlo : st.lastFrameTimestamp + FRAME_INTERVAL ≤ t)
    (hhi : t < st.lastFrameTimestamp + 2 * FRAME_INTERVAL) :
    ∃ f ∈ (runFrames st es).2,
      st.lastFrameTimestamp < f.time
      ∧ f.time < st.lastFrameTimestamp + 2 * FRAME_INTERVAL := by
  induction es generalizing st with
  | nil => exact absurd hmem (List.not_mem_nil _)
  | cons e es ih =>
    rw [Chron, List.pairwise_cons] at hchron
    obtain ⟨hhead, hchron'⟩ := hchron
    have hse : st.lastFrameTimestamp ≤ e.time := hle e (List.mem_cons_self _ _)
    have het : e.time ≤ t := by
      rcases List.mem_cons.mp hmem with heq | hmem'
      · rw [← heq]
        exact Nat.le_refl _
      · exact hhead _ hmem'
    rw [runFrames_cons]
    cases e with
    | screencast u =>
      have hstep : stepFrame st (StreamEvent.screencast u)
          = ({ st with lastFrameTimestamp := u }, some ⟨u, false⟩) := by
        simp only [stepFrame]
        rw [if_pos hstream]
      rw [hstep]
      have hmem' : StreamEvent.tick t ∈ es := by
        rcases List.mem_cons.mp hmem with heq | hmem'
        · exact absurd heq (by simp)
        · exact hmem'
      have hseu : st.lastFrameTimestamp ≤ u := hse
      have hut : u ≤ t := het
      rcases Nat.eq_or_lt_of_le hseu with hequ | hlt
      · have hres := ih { st with lastFrameTimestamp := u } hstream
          (by show (1 : ℕ) ≤ u; omega) (fun e' he' => hhead e' he') hchron' hmem'
          (by show u + FRAME_INTERVAL ≤ t; omega)
          (by show t < u + 2 * FRAME_INTERVAL; omega)
        obtain ⟨f, hf, h1, h2⟩ := hres
        have h1' : u < f.time := h1
        have h2' : f.time < u + 2 * FRAME_INTERVAL := h2
        exact ⟨f, by simp [hf], by omega, by omega⟩
      · refine ⟨⟨u, false⟩, by simp, hlt, ?_⟩
        show u < st.lastFrameTimestamp + 2 * FRAME_INTERVAL
        omega
    | tick u =>
      have hsu : st.lastFrameTimestamp ≤ u := hse
      have hut : u ≤ t := het
      by_cases hfire : FRAME_INTERVAL ≤ u - st.lastFrameTimestamp
      · have hstep : stepFrame st (StreamEvent.tick u)
            = ({ st with lastFrameTimestamp := u }, some ⟨u, true⟩) := by
          simp only [stepFrame]
          rw [if_pos ⟨hstream, Or.inr hfire⟩]
        rw [hstep]
        have hgap : st.lastFrameTimestamp + FRAME_INTERVAL ≤ u := by omega
        have hfi : 0 < FRAME_INTERVAL := by decide
        refine ⟨⟨u, true⟩, by simp, ?_, ?_⟩
        · show st.lastFrameTimestamp < u
          omega
        · show u < st.lastFrameTimestamp + 2 * FRAME_INTERVAL
          omega
      · have hstep : stepFrame st (StreamEvent.tick u) = (st, none) := by
          simp only [stepFrame]
          rw [if_neg ?_]
          rintro ⟨-, hg⟩
          rcases hg with h0 | hg'
          · omega
          · exact hfire hg'
        rw [hstep]
        have hmem' : StreamEvent.tick t ∈ es := by
          rcases List.mem_cons.mp hmem with heq | hmem'
          · have hfi : 0 < FRAME_INTERVAL := by decide
            have hut' : u = t := by
              injection heq.symm
            omega
          · exact hmem'
        have hres := ih st hstream hpos
          (fun e' he' => le_trans hse (hhead e' he')) hchron' hmem' hlo hhi
        obtain ⟨f, hf, h1, h2⟩ := hres
        exact ⟨f, by simpa using hf, h1, h2⟩

/-- C5 (amended): over any chronological streaming trace with positive
times, split around a timer tick at time `t`: (suppression, as claimed) if
that tick forwards a heartbeat frame, every frame forwarded before it is at
least `FRAME_INTERVAL` older, so no heartbeat is ever added within
`FRAME_INTERVAL` of an already forwarded frame; (liveness, weakened) if a
frame was forwarded at time `s` and the tick lands in
`[s + FRAME_INTERVAL, s + 2 * FRAME_INTERVAL)` — as some tick of a
`FRAME_INTERVAL`-periodic timer must — then some frame is forwarded in
`(s, s + 2 * FRAME_INTERVAL)`. The code only bounds the frame gap by twice
`FRAME_INTERVAL`, not by `FRAME_INTERVAL` as claimed. -/
theorem frame_heartbeat_amended (es1 es2 : List StreamEvent) (t s : ℕ)
    (hchron : Chron (es1 ++ StreamEvent.tick t :: es2))
    (hpos : ∀ e ∈ es1 ++ StreamEvent.tick t :: es2, 1 ≤ e.time) :
    ((stepFrame (runFrames initStream es1).1 (StreamEvent.tick t)).2
        = some ⟨t, true⟩ →
      ∀ f ∈ (runFrames initStream es1).2, f.time + FRAME_INTERVAL ≤ t)
    ∧ ((∃ b, (⟨s, b⟩ : Forwarded) ∈ (runFrames initStream es1).2) →
      s + FRAME_INTERVAL ≤ t → t < s + 2 * FRAME_INTERVAL →
      ∃ f ∈ (runFrames initStream (es1 ++ StreamEvent.tick t :: es2)).2,
        s < f.time ∧ f.time < s + 2 * FRAME_INTERVAL) := by
  have hchronP : List.Pairwise (fun a b => a.time ≤ b.time)
      (es1 ++ StreamEvent.tick t :: es2) := hchron
  obtain ⟨hch1, hch2, hcross⟩ := List.pairwise_append.mp hchronP
  have hstream1 : (runFrames initStream es1).1.isStreaming = true :=
    runFrames_isStreaming es1 initStream
  have hle0 : ∀ e ∈ es1, initStream.lastFrameTimestamp ≤ e.time :=
    fun _ _ => Nat.zero_le _
  obtain ⟨-, hmax⟩ := runFrames_last_bound es1 initStream hle0 hch1
  have hsrc := runFrames_last_src es1 initStream
  have hfsrc := runFrames_forwarded_src es1 initStream
  have hi0 : initStream.lastFrameTimestamp = 0 := rfl
  have hlastle : ∀ eb ∈ StreamEvent.tick t :: es2,
      (runFrames initStream es1).1.lastFrameTimestamp ≤ eb.time := by
    intro eb heb
    rcases hsrc with h0 | ⟨f0, hf0, hf0t⟩
    · rw [h0]
      exact Nat.zero_le _
    · obtain ⟨e0, he0, he0t⟩ := hfsrc f0 hf0
      rw [← hf0t, ← he0t]
      exact hcross e0 he0 eb heb
  have hlast_le_t : (runFrames initStream es1).1.lastFrameTimestamp ≤ t :=
    hlastle _ (List.mem_cons_self _ _)
  constructor
  · intro hsome f hf
    have hft : f.time ≤ (runFrames initStream es1).1.lastFrameTimestamp := hmax f hf
    have hf1 : 1 ≤ f.time := by
      obtain ⟨e0, he0, he0t⟩ := hfsrc f hf
      rw [← he0t]
      exact hpos e0 (List.mem_append_left _ he0)
    by_cases hg : FRAME_INTERVAL ≤ t - (runFrames initStream es1).1.lastFrameTimestamp
    · omega
    · have hnone : stepFrame (runFrames initStream es1).1 (StreamEvent.tick t)
          = ((runFrames initStream es1).1, none) := by
        simp only [stepFrame]
        rw [if_neg ?_]
        rintro ⟨-, h0 | hg'⟩
        · omega
        · exact hg hg'
      rw [hnone] at hsome
      simp at hsome
  · rintro ⟨b, hb⟩ hlo hhi
    have hs1 : 1 ≤ s := by
      obtain ⟨e0, he0, he0t⟩ := hfsrc ⟨s, b⟩ hb
      have he0s : e0.time = s := he0t
      have := hpos e0 (List.mem_append_left _ he0)
      omega
    have hsl : s ≤ (runFrames initStream es1).1.lastFrameTimestamp := hmax ⟨s, b⟩ hb
    rcases Nat.eq_or_lt_of_le hsl with heq | hlt
    · have hlive := runFrames_tick_live (StreamEvent.tick t :: es2)
        (runFrames initStream es1).1 t hstream1 (by omega) hlastle hch2
        (List.mem_cons_self _ _) (by omega) (by omega)
      obtain ⟨f, hf, h1, h2⟩ := hlive
      refine ⟨f, ?_, by omega, by omega⟩
      rw [runFrames_append]
      exact List.mem_append_right _ hf
    · rcases hsrc with h0 | ⟨f0, hf0, hf0t⟩
      · omega
      · refine ⟨f0, ?_, by omega, by omega⟩
        rw [runFrames_append]
        exact List.mem_append_left _ hf0

/-- Witness for the amended C5 theorem: one screencast frame at 1000 followed
by a timer tick at 2000. -/
theorem frame_heartbeat_amended_witness :
    Chron ([StreamEvent.screencast 1000] ++ StreamEvent.tick 2000 :: [])
    ∧ (∀ e ∈ [StreamEvent.screencast 1000] ++ StreamEvent.tick 2000 :: [], 1 ≤ e.time)
    ∧ (((stepFrame (runFrames initStream [StreamEvent.screencast 1000]).1
          (StreamEvent.tick 2000)).2 = some ⟨2000, true⟩ →
        ∀ f ∈ (runFrames initStream [StreamEvent.screencast 1000]).2,
          f.time + FRAME_INTERVAL ≤ 2000)
      ∧ ((∃ b, (⟨1000, b⟩ : Forwarded)
            ∈ (runFrames initStream [StreamEvent.screencast 1000]).2) →
        1000 + FRAME_INTERVAL ≤ 2000 → 2000 < 1000 + 2 * FRAME_INTERVAL →
        ∃ f ∈ (runFrames initStream
            ([StreamEvent.screencast 1000] ++ StreamEvent.tick 2000 :: [])).2,
          1000 < f.time ∧ f.time < 1000 + 2 * FRAME_INTERVAL)) :=
  ⟨by unfold Chron; decide, by decide,
    frame_heartbeat_amended [StreamEvent.screencast 1000] [] 2000 1000
      (by unfold Chron; decide) (by decide)⟩
